import Mathlib

/-!
Verification of the export-header logic of `aldryn_forms/admin.py`.

The embedding follows the source file:
  * `FormField` / `FormSubmission` model the persisted submission record
    (name, timestamp `sent_at`, `language`, ordered labeled field data).
  * `clean_data` embeds the accessor factory `clean_data(label, position)`.
  * `sdSet` embeds Django's `SortedDict.__setitem__` (append a fresh key at
    the end, update an existing key in place).
  * `headersAux` embeds the header-building loop of `form_export`
    (occurrence counter in a `defaultdict(lambda: 1)`, key test
    `label in headers`, disambiguated name `'%s %s' % (label, occurrences[label])`).
  * `buildHeaders` appends the two trailing columns
    `headers[ugettext('Language')] = 'language'` and
    `headers[ugettext('Submitted on')] = 'sent_at'` (ugettext is modelled as
    the identity, i.e. the untranslated message).
  * `form_export` embeds the request handler: form validation, empty-queryset
    warning + redirect, reference-entry selection by `order_by('-sent_at')[0]`
    (modelled as an insertion sort, descending on `sent_at`), and the
    `file_type=`/`format=` fallback around the external export call.
-/

structure FormField where
  label : String
  value : String
deriving DecidableEq, Repr

structure FormSubmission where
  name : String
  sent_at : Nat
  language : String
  data : List FormField
deriving DecidableEq, Repr

instance : Inhabited FormField := ⟨⟨"", ""⟩⟩

instance : Inhabited FormSubmission := ⟨⟨"", 0, "", []⟩⟩

/-- Embedding of the model method get_form_data: the ordered list of labeled
field/value pairs stored with the submission. -/
def FormSubmission.get_form_data (s : FormSubmission) : List FormField :=
  s.data

/-- Embedding of the accessor factory `clean_data(label, position)` of
`form_export`: on a submission, fetch the field at `position`
(`IndexError` leaves `field = None`, modelled by `Option`), and return its
value only when its label equals the expected `label`; otherwise `''`. -/
def clean_data (label : String) (position : Nat) : FormSubmission → String :=
  fun obj =>
    match obj.get_form_data.get? position with
    | none => ""
    | some field => if field.label = label then field.value else ""

/-- A value of the headers mapping: either a per-field accessor (a callable in
the source) or the name of a model attribute (`'language'`, `'sent_at'`). -/
inductive HeaderValue where
  | accessor (f : FormSubmission → String)
  | attr (name : String)

/-- Embedding of `SortedDict.__setitem__`: an existing key is updated in
place (its position is kept), a fresh key is appended at the end. -/
def sdSet (d : List (String × HeaderValue)) (k : String) (v : HeaderValue) :
    List (String × HeaderValue) :=
  if d.any (fun p => p.1 == k) then
    d.map (fun p => if p.1 == k then (p.1, v) else p)
  else
    d ++ [(k, v)]

/-- Embedding of `SortedDict` lookup: the value stored at key `k` (first
match; keys of a dict are unique). -/
def sdGet : List (String × HeaderValue) → String → Option HeaderValue
  | [], _ => none
  | e :: rest, k => if e.1 = k then some e.2 else sdGet rest k

/-- Embedding of the header-building loop of `form_export`:

    occurrences = defaultdict(lambda: 1)
    for position, field in enumerate(fields):
        label = field.label
        if label in headers:
            occurrences[label] += 1
            label = u'%s %s' % (label, occurrences[label])
        headers[label] = clean_data(field.label, position)

`occ` is the occurrence counter (default value 1), `headers` the accumulated
`SortedDict`, `pos` the position of the next field. -/
def headersAux : (String → Nat) → List (String × HeaderValue) → Nat →
    List FormField → List (String × HeaderValue)
  | _, headers, _, [] => headers
  | occ, headers, pos, field :: rest =>
    let label := field.label
    if headers.any (fun p => p.1 == label) then
      headersAux (fun l => if l = label then occ label + 1 else occ l)
        (sdSet headers (label ++ " " ++ Nat.repr (occ label + 1))
          (HeaderValue.accessor (clean_data label pos)))
        (pos + 1) rest
    else
      headersAux occ
        (sdSet headers label (HeaderValue.accessor (clean_data label pos)))
        (pos + 1) rest

/-- The field-derived part of the headers mapping, as built by `form_export`
from the reference submission's field list. -/
def fieldHeaders (fields : List FormField) : List (String × HeaderValue) :=
  headersAux (fun _ => 1) [] 0 fields

/-- The full headers mapping of `form_export`: the field-derived columns
followed by `headers[ugettext('Language')] = 'language'` and
`headers[ugettext('Submitted on')] = 'sent_at'`. -/
def buildHeaders (fields : List FormField) : List (String × HeaderValue) :=
  sdSet (sdSet (fieldHeaders fields) "Language" (HeaderValue.attr "language"))
    "Submitted on" (HeaderValue.attr "sent_at")

/-- The trace of the header-building loop: the sequence of dictionary
assignments it performs, one `(column name, accessor)` pair per field, in
order. `keys` mirrors the key list of the `SortedDict` (an assignment to an
existing key adds no key), `occ` and `pos` are as in `headersAux`. The
`headers` state of `headersAux` is recovered by replaying the assignments;
under distinctness of the assigned names the two agree entry by entry
(`headersAux_eq_append` below). -/
def headerTrace : (String → Nat) → List String → Nat → List FormField →
    List (String × HeaderValue)
  | _, _, _, [] => []
  | occ, keys, pos, field :: rest =>
    let label := field.label
    if keys.any (fun k => k == label) then
      let name := label ++ " " ++ Nat.repr (occ label + 1)
      (name, HeaderValue.accessor (clean_data label pos)) ::
        headerTrace (fun l => if l = label then occ label + 1 else occ l)
          (if keys.any (fun k => k == name) then keys else keys ++ [name])
          (pos + 1) rest
    else
      (label, HeaderValue.accessor (clean_data label pos)) ::
        headerTrace occ (keys ++ [label]) (pos + 1) rest

/-- The sequence of column names assigned by the header-building loop, in
field order. -/
def assignedNames (fields : List FormField) : List String :=
  (headerTrace (fun _ => 1) [] 0 fields).map Prod.fst

/-- All column names assigned by `form_export`, in assignment order: the
field-derived ones followed by the two trailing columns. -/
def allColumnNames (fields : List FormField) : List String :=
  assignedNames fields ++ ["Language", "Submitted on"]

/-- The ordering used by `entries.order_by('-sent_at')`: descending on the
submission timestamp. -/
def sentAtGE (a b : FormSubmission) : Prop :=
  b.sent_at ≤ a.sent_at

instance : DecidableRel sentAtGE :=
  fun a b => Nat.decLe b.sent_at a.sent_at

instance : IsTotal FormSubmission sentAtGE :=
  ⟨fun a b => Nat.le_total b.sent_at a.sent_at⟩

instance : IsTrans FormSubmission sentAtGE :=
  ⟨fun _ _ _ h1 h2 => Nat.le_trans h2 h1⟩

/-- Embedding of `entries.order_by('-sent_at')`: the entries sorted by
submission timestamp, newest first (the ORM ordering is modelled as a
sort on the `sent_at` column, descending). -/
def sortBySentAtDesc (entries : List FormSubmission) : List FormSubmission :=
  List.insertionSort sentAtGE entries

/-- Embedding of `first_entry = entries.order_by('-sent_at')[0]`: the
reference submission used to build the export headers (the source only
evaluates this under `entries.exists()`, so the default is never reached). -/
def first_entry (entries : List FormSubmission) : FormSubmission :=
  (sortBySentAtDesc entries).headD default

/-- Embedding of `entries.exists()`. -/
def queryset_exists (entries : List FormSubmission) : Bool :=
  !entries.isEmpty

/-- The export filter form (`FormDataExportForm` / `FormSubmissionExportForm`).
`forms.py` is not under `src/`; per the spec the form exposes validation,
a filtered queryset of matching submissions, and an attachment filename. -/
structure ExportForm where
  form_name : String
  is_valid : Bool
  queryset : List FormSubmission
  errors : List String
deriving Inhabited

/-- Embedding of `form.get_queryset()`. -/
def ExportForm.get_queryset (f : ExportForm) : List FormSubmission :=
  f.queryset

/-- Modelled from the spec: `get_filename` lives in `forms.py`, which is not
under `src/`; the spec says the export response carries "an attachment
filename derived from the filter form", so the filename is derived here from
the form's filter criterion. -/
def ExportForm.get_filename (f : ExportForm) : String :=
  "export-" ++ f.form_name ++ ".xls"

/-- A Python exception escaping the export call: `TypeError` (caught by the
fallback in `form_export`) or any other exception. -/
inductive PyError where
  | typeError
  | otherError (msg : String)
deriving DecidableEq, Repr

/-- Which keyword argument the export call is invoked with:
`file_type='xls'` (django-tablib >= 3.1) or `format='xls'` (older). -/
inductive ExportKeyword where
  | file_type
  | format
deriving DecidableEq, Repr

/-- The tabular response produced by the external export view: an HTTP
attachment with a content type and a filename. -/
structure ExportResponse where
  contentType : String
  filename : String
deriving DecidableEq, Repr

/-- The response of `form_export`: the export response, or a warning message
plus redirect (`message_user` + `redirect(export_url)`), or the re-rendered
export form with validation errors (`render_to_response`). -/
inductive AdminResponse where
  | exported (r : ExportResponse)
  | warningRedirect (message : String) (url : String)
  | renderedExportForm (errors : List String)
deriving Repr

/-- The admin metadata used for URL names: `self.model._meta.app_label` and
the model name. -/
structure AdminMeta where
  app_label : String
  model_name : String
deriving Repr

/-- Embedding of `BaseFormSubmissionAdmin.get_admin_url`:
`"%s_%s_%s" % (app_label, model_name, name)`. -/
def BaseFormSubmissionAdmin.get_admin_url (meta : AdminMeta) (name : String) : String :=
  meta.app_label ++ "_" ++ meta.model_name ++ "_" ++ name

/-- The type of the external export call (`django_tablib.views.export`),
abstracted over queryset, headers, filename and the keyword variant; a call
either returns a response or raises. -/
def ExportFn : Type :=
  List FormSubmission → List (String × HeaderValue) → String → ExportKeyword →
    Except PyError ExportResponse

/-- Embedding of the source's do_export: the export call with the request,
queryset, model, headers and filename arguments fixed (built with functools
in the source), leaving only the keyword variant to choose. -/
def do_export (exportFn : ExportFn) (form : ExportForm) (kw : ExportKeyword) :
    Except PyError ExportResponse :=
  exportFn form.get_queryset
    (buildHeaders (first_entry form.get_queryset).get_form_data)
    form.get_filename kw

/-- Embedding of `BaseFormSubmissionAdmin.form_export`: validate the filter
form; on an empty queryset warn and redirect to the export view; otherwise
build the headers from the most recent entry and call the export view with
`file_type='xls'`, retrying once with `format='xls'` on `TypeError`; any
other exception (and any exception of the retry) propagates. -/
def form_export (meta : AdminMeta) (exportFn : ExportFn) (form : ExportForm) :
    Except PyError AdminResponse :=
  if form.is_valid then
    let entries := form.get_queryset
    if queryset_exists entries then
      match do_export exportFn form ExportKeyword.file_type with
      | Except.ok response => Except.ok (AdminResponse.exported response)
      | Except.error PyError.typeError =>
        match do_export exportFn form ExportKeyword.format with
        | Except.ok response => Except.ok (AdminResponse.exported response)
        | Except.error e => Except.error e
      | Except.error (PyError.otherError msg) =>
        Except.error (PyError.otherError msg)
    else
      Except.ok (AdminResponse.warningRedirect "No records found"
        ("admin:" ++ BaseFormSubmissionAdmin.get_admin_url meta "export"))
  else
    Except.ok (AdminResponse.renderedExportForm form.errors)

/-- The installed version of the export library, which determines the
accepted keyword argument. -/
inductive TablibVersion where
  | modern
  | legacy
deriving DecidableEq, Repr

/-- Modelled from the spec: `django_tablib.views.export` is a third-party
collaborator. Since django-tablib 3.1 the parameter is called `file_type`;
older versions accept `format`; an unexpected keyword argument raises
`TypeError`; an xls export returns a spreadsheet attachment response with
the Excel content type and the given filename. -/
def tablibExport (v : TablibVersion) : ExportFn :=
  fun _queryset _headers filename kw =>
    match v, kw with
    | TablibVersion.modern, ExportKeyword.file_type =>
      Except.ok ⟨"application/vnd.ms-excel", filename⟩
    | TablibVersion.legacy, ExportKeyword.format =>
      Except.ok ⟨"application/vnd.ms-excel", filename⟩
    | _, _ => Except.error PyError.typeError

/-- An admin request (never inspected by the permission check). -/
structure HttpRequest where
  user : String
deriving DecidableEq, Repr

/-- Embedding of `BaseFormSubmissionAdmin.has_add_permission`: always denies
adding submission records. -/
def BaseFormSubmissionAdmin.has_add_permission (_request : HttpRequest) : Bool :=
  false

/-- The FormDataAdmin class does not override has_add_permission; it
inherits the base admin's method. -/
def FormDataAdmin.has_add_permission : HttpRequest → Bool :=
  BaseFormSubmissionAdmin.has_add_permission

/-- The FormSubmissionAdmin class does not override has_add_permission; it
inherits the base admin's method. -/
def FormSubmissionAdmin.has_add_permission : HttpRequest → Bool :=
  BaseFormSubmissionAdmin.has_add_permission

/-- How many fields strictly before position `p` carry label `L`. -/
def countBefore (fields : List FormField) (p : Nat) (L : String) : Nat :=
  ((fields.take p).map FormField.label).count L

/-- The label of the field at position `p` (empty when out of range). -/
def labelAt (fields : List FormField) (p : Nat) : String :=
  (fields.map FormField.label).getD p ""

/-- The column name described by the spec for the field at position `p`: the
label itself for a first occurrence of that label, and the label suffixed
with a space and the occurrence index (2 for the second occurrence, 3 for
the third, ...) for a repeated label. -/
def specName (fields : List FormField) (p : Nat) : String :=
  if countBefore fields p (labelAt fields p) = 0 then labelAt fields p
  else labelAt fields p ++ " " ++ Nat.repr (countBefore fields p (labelAt fields p) + 1)

/-- No-collision condition on a field sequence: no first occurrence of a
label is equal to a column name already assigned to an earlier field. When
it fails, the occurrence counter of the loop is advanced by the stray key
and the disambiguated names drift away from the occurrence index. -/
def NoCollision (fields : List FormField) : Prop :=
  ∀ p, p < fields.length → countBefore fields p (labelAt fields p) = 0 →
    ∀ q, q < p → specName fields q ≠ labelAt fields p

instance NoCollision.decidable (fields : List FormField) :
    Decidable (NoCollision fields) :=
  inferInstanceAs (Decidable (∀ p, p < fields.length →
    countBefore fields p (labelAt fields p) = 0 →
    ∀ q, q < p → specName fields q ≠ labelAt fields p))

theorem sdSet_of_not_mem (d : List (String × HeaderValue)) (k : String)
    (v : HeaderValue) (h : k ∉ d.map Prod.fst) : sdSet d k v = d ++ [(k, v)] := by
  have hany : d.any (fun p => p.1 == k) = false := by
    rw [List.any_eq_false]
    intro p hp hpk
    exact h (List.mem_map.mpr ⟨p, hp, by simpa using hpk⟩)
  simp [sdSet, hany]

theorem sdSet_keys_of_mem (d : List (String × HeaderValue)) (k : String)
    (v : HeaderValue) (h : k ∈ d.map Prod.fst) :
    (sdSet d k v).map Prod.fst = d.map Prod.fst := by
  have hany : d.any (fun p => p.1 == k) = true := by
    rw [List.any_eq_true]
    obtain ⟨p, hp, hpk⟩ := List.mem_map.mp h
    exact ⟨p, hp, by simpa using hpk⟩
  simp only [sdSet, hany, if_true, List.map_map]
  apply List.map_congr_left
  intro p _
  simp only [Function.comp_apply]
  split <;> rfl

theorem sdGet_append_of_not_mem (d l : List (String × HeaderValue)) (k : String)
    (h : k ∉ d.map Prod.fst) : sdGet (d ++ l) k = sdGet l k := by
  induction d with
  | nil => simp
  | cons e rest ih =>
    simp only [List.map_cons, List.mem_cons] at h
    push_neg at h
    have hne : ¬ e.1 = k := fun he => h.1 he.symm
    simp only [List.cons_append, sdGet, if_neg hne, List.append_eq]
    exact ih h.2

theorem headerTrace_length (fs : List FormField) :
    ∀ (occ : String → Nat) (keys : List String) (pos : Nat),
    (headerTrace occ keys pos fs).length = fs.length := by
  induction fs with
  | nil => intro occ keys pos; simp [headerTrace]
  | cons f rest ih =>
    intro occ keys pos
    by_cases hc : keys.any (fun k => k == f.label) = true
    · simp [headerTrace, hc, ih]
    · simp only [Bool.not_eq_true] at hc
      simp [headerTrace, hc, ih]

theorem any_map_fst (hs : List (String × HeaderValue)) (label : String) :
    (hs.map Prod.fst).any (fun k => k == label) = hs.any (fun p => p.1 == label) := by
  induction hs with
  | nil => rfl
  | cons e rest ih => simp only [List.map_cons, List.any_cons, ih]

theorem headersAux_eq_append (fs : List FormField) :
    ∀ (occ : String → Nat) (hs : List (String × HeaderValue)) (pos : Nat),
    (hs.map Prod.fst ++ (headerTrace occ (hs.map Prod.fst) pos fs).map Prod.fst).Nodup →
    headersAux occ hs pos fs = hs ++ headerTrace occ (hs.map Prod.fst) pos fs := by
  induction fs with
  | nil =>
    intro occ hs pos _
    simp [headersAux, headerTrace]
  | cons f rest ih =>
    intro occ hs pos hnd
    by_cases hc : hs.any (fun p => p.1 == f.label) = true
    · have htr : headerTrace occ (hs.map Prod.fst) pos (f :: rest) =
          (f.label ++ " " ++ Nat.repr (occ f.label + 1),
            HeaderValue.accessor (clean_data f.label pos)) ::
          headerTrace (fun l => if l = f.label then occ f.label + 1 else occ l)
            (if (hs.map Prod.fst).any
                (fun k => k == f.label ++ " " ++ Nat.repr (occ f.label + 1)) = true then
              hs.map Prod.fst
            else hs.map Prod.fst ++ [f.label ++ " " ++ Nat.repr (occ f.label + 1)])
            (pos + 1) rest := by
        simp only [headerTrace, any_map_fst, hc, if_true]
      rw [htr] at hnd
      have hnotmem : f.label ++ " " ++ Nat.repr (occ f.label + 1) ∉ hs.map Prod.fst := by
        intro hmem
        have hdisj := (List.nodup_append.mp hnd).2.2
        exact hdisj hmem (List.mem_cons_self _ _)
      have hanyname : ((hs.map Prod.fst).any
          (fun k => k == f.label ++ " " ++ Nat.repr (occ f.label + 1))) = false := by
        rw [List.any_eq_false]
        intro x hx hbx
        exact hnotmem (by rwa [show x = f.label ++ " " ++ Nat.repr (occ f.label + 1) from by simpa using hbx] at hx)
      rw [hanyname] at htr hnd
      simp only [Bool.false_eq_true, if_false] at htr hnd
      have hset : sdSet hs (f.label ++ " " ++ Nat.repr (occ f.label + 1))
          (HeaderValue.accessor (clean_data f.label pos))
          = hs ++ [(f.label ++ " " ++ Nat.repr (occ f.label + 1),
              HeaderValue.accessor (clean_data f.label pos))] :=
        sdSet_of_not_mem _ _ _ hnotmem
      have hkeys : (hs ++ [(f.label ++ " " ++ Nat.repr (occ f.label + 1),
          HeaderValue.accessor (clean_data f.label pos))]).map Prod.fst
          = hs.map Prod.fst ++ [f.label ++ " " ++ Nat.repr (occ f.label + 1)] := by
        simp
      have haux : headersAux occ hs pos (f :: rest)
          = headersAux (fun l => if l = f.label then occ f.label + 1 else occ l)
            (sdSet hs (f.label ++ " " ++ Nat.repr (occ f.label + 1))
              (HeaderValue.accessor (clean_data f.label pos))) (pos + 1) rest := by
        simp only [headersAux, hc, if_true]
      rw [haux, hset]
      have hnd2 : ((hs ++ [(f.label ++ " " ++ Nat.repr (occ f.label + 1),
          HeaderValue.accessor (clean_data f.label pos))]).map Prod.fst ++
          (headerTrace (fun l => if l = f.label then occ f.label + 1 else occ l)
            ((hs ++ [(f.label ++ " " ++ Nat.repr (occ f.label + 1),
              HeaderValue.accessor (clean_data f.label pos))]).map Prod.fst)
            (pos + 1) rest).map Prod.fst).Nodup := by
        rw [hkeys]
        rw [List.append_assoc, List.singleton_append]
        simpa using hnd
      rw [ih _ _ _ hnd2, hkeys, htr]
      simp
    · simp only [Bool.not_eq_true] at hc
      have htr : headerTrace occ (hs.map Prod.fst) pos (f :: rest) =
          (f.label, HeaderValue.accessor (clean_data f.label pos)) ::
          headerTrace occ (hs.map Prod.fst ++ [f.label]) (pos + 1) rest := by
        simp only [headerTrace, any_map_fst, hc, Bool.false_eq_true, if_false]
      rw [htr] at hnd
      have hnotmem : f.label ∉ hs.map Prod.fst := by
        intro hmem
        have hdisj := (List.nodup_append.mp hnd).2.2
        exact hdisj hmem (List.mem_cons_self _ _)
      have hset : sdSet hs f.label (HeaderValue.accessor (clean_data f.label pos))
          = hs ++ [(f.label, HeaderValue.accessor (clean_data f.label pos))] :=
        sdSet_of_not_mem _ _ _ hnotmem
      have hkeys : (hs ++ [(f.label,
          HeaderValue.accessor (clean_data f.label pos))]).map Prod.fst
          = hs.map Prod.fst ++ [f.label] := by
        simp
      have haux : headersAux occ hs pos (f :: rest)
          = headersAux occ
            (sdSet hs f.label (HeaderValue.accessor (clean_data f.label pos)))
            (pos + 1) rest := by
        simp only [headersAux, hc, Bool.false_eq_true, if_false]
      rw [haux, hset]
      have hnd2 : ((hs ++ [(f.label,
          HeaderValue.accessor (clean_data f.label pos))]).map Prod.fst ++
          (headerTrace occ
            ((hs ++ [(f.label,
              HeaderValue.accessor (clean_data f.label pos))]).map Prod.fst)
            (pos + 1) rest).map Prod.fst).Nodup := by
        rw [hkeys]
        rw [List.append_assoc, List.singleton_append]
        simpa using hnd
      rw [ih _ _ _ hnd2, hkeys, htr]
      simp

theorem fieldHeaders_eq_trace (fields : List FormField)
    (h : (assignedNames fields).Nodup) :
    fieldHeaders fields = headerTrace (fun _ => 1) [] 0 fields := by
  have h2 := headersAux_eq_append fields (fun _ => 1) [] 0
    (by simpa [assignedNames] using h)
  simpa [fieldHeaders] using h2

theorem fieldHeaders_keys (fields : List FormField)
    (h : (assignedNames fields).Nodup) :
    (fieldHeaders fields).map Prod.fst = assignedNames fields := by
  rw [fieldHeaders_eq_trace fields h]
  rfl

theorem buildHeaders_eq_append (fields : List FormField)
    (h : (allColumnNames fields).Nodup) :
    buildHeaders fields = fieldHeaders fields ++
      [("Language", HeaderValue.attr "language"),
       ("Submitted on", HeaderValue.attr "sent_at")] := by
  have hA : (assignedNames fields).Nodup := (List.nodup_append.mp h).1
  have hdisj := (List.nodup_append.mp h).2.2
  have hLang : "Language" ∉ (fieldHeaders fields).map Prod.fst := by
    rw [fieldHeaders_keys fields hA]
    intro hmem
    exact hdisj hmem (by simp)
  have hSub : "Submitted on" ∉ (fieldHeaders fields).map Prod.fst := by
    rw [fieldHeaders_keys fields hA]
    intro hmem
    exact hdisj hmem (by simp)
  have hLS : ("Language" : String) ≠ "Submitted on" := by decide
  rw [buildHeaders, sdSet_of_not_mem _ _ _ hLang, sdSet_of_not_mem, List.append_assoc]
  rfl
  · simp only [List.map_append, List.map_cons, List.map_nil]
    intro hmem
    rcases List.mem_append.mp hmem with h1 | h1
    · exact hSub h1
    · simp only [List.mem_singleton] at h1
      exact hLS h1.symm

/-- C1 (amended): for a filtered submission set with at least one record, the
number of export column headers equals the number of fields of the most
recent submission's field sequence plus 2 (locale and timestamp), provided
the column names assigned by the loop (including the two trailing ones) are
pairwise distinct. Without that proviso a disambiguated name can coincide
with an existing key, in which case the `SortedDict` assignment overwrites
that column and the count drops (see the counterexample). -/
theorem c1_export_header_count (fields : List FormField)
    (h : (allColumnNames fields).Nodup) :
    (buildHeaders fields).length = fields.length + 2 := by
  rw [buildHeaders_eq_append fields h, List.length_append,
    fieldHeaders_eq_trace fields (List.nodup_append.mp h).1, headerTrace_length]
  rfl

/-- C1 counterexample: with field labels "L", "L 2", "L", the disambiguated
name generated for the third field is "L 2", which overwrites the existing
"L 2" column, so only 4 headers result instead of 3 + 2 = 5. -/
theorem c1_counterexample :
    ¬ ((buildHeaders [⟨"L", "a"⟩, ⟨"L 2", "b"⟩, ⟨"L", "c"⟩]).length
        = ([⟨"L", "a"⟩, ⟨"L 2", "b"⟩, ⟨"L", "c"⟩] : List FormField).length + 2) := by
  decide

/-- C1 witness: with field labels "a", "a", "b" the assigned names
"a", "a 2", "b", "Language", "Submitted on" are pairwise distinct and the
header count is 3 + 2. -/
theorem c1_witness :
    (allColumnNames [⟨"a", "1"⟩, ⟨"a", "2"⟩, ⟨"b", "3"⟩]).Nodup
    ∧ (buildHeaders [⟨"a", "1"⟩, ⟨"a", "2"⟩, ⟨"b", "3"⟩]).length
        = ([⟨"a", "1"⟩, ⟨"a", "2"⟩, ⟨"b", "3"⟩] : List FormField).length + 2 :=
  ⟨by decide, c1_export_header_count _ (by decide)⟩

theorem labelAt_append_cons (pre : List FormField) (f : FormField)
    (rest : List FormField) :
    labelAt (pre ++ f :: rest) pre.length = f.label := by
  unfold labelAt
  rw [List.map_append, List.getD_eq_getElem?_getD,
    List.getElem?_append_right (by simp)]
  simp

theorem labelAt_append_of_lt (pre suf : List FormField) (q : Nat)
    (h : q < pre.length) :
    labelAt (pre ++ suf) q = (pre.map FormField.label).getD q "" := by
  unfold labelAt
  rw [List.map_append, List.getD_eq_getElem?_getD,
    List.getElem?_append_left (by simpa using h), List.getD_eq_getElem?_getD]

theorem countBefore_append_cons (pre : List FormField) (f : FormField)
    (rest : List FormField) (L : String) :
    countBefore (pre ++ f :: rest) pre.length L
      = (pre.map FormField.label).count L := by
  unfold countBefore
  rw [List.take_left]

theorem countBefore_append_cons_succ (pre : List FormField) (f : FormField)
    (rest : List FormField) (L : String) :
    countBefore (pre ++ f :: rest) (pre.length + 1) L
      = (pre.map FormField.label).count L + (if f.label = L then 1 else 0) := by
  unfold countBefore
  rw [List.take_append 1, List.map_append, List.count_append]
  rw [show (f :: rest).take 1 = [f] from rfl]
  simp only [List.map_cons, List.map_nil, List.count_cons, List.count_nil,
    List.not_mem_nil, beq_iff_eq, Nat.zero_add]

theorem countBefore_append_of_le (pre suf : List FormField) (q : Nat)
    (h : q ≤ pre.length) (L : String) :
    countBefore (pre ++ suf) q L = ((pre.map FormField.label).take q).count L := by
  unfold countBefore
  rw [List.take_append_eq_append_take, Nat.sub_eq_zero_of_le h, List.take_zero,
    List.append_nil, List.map_take]

theorem first_occurrence_exists (L : String) (xs : List String) (h : L ∈ xs) :
    ∃ i, i < xs.length ∧ xs.getD i "" = L ∧ (xs.take i).count L = 0 := by
  induction xs with
  | nil => cases h
  | cons x rest ih =>
    by_cases hx : x = L
    · exact ⟨0, Nat.succ_pos _, by simpa using hx, by simp⟩
    · have hmem : L ∈ rest := by
        rcases List.mem_cons.mp h with h1 | h1
        · exact absurd h1.symm hx
        · exact h1
      obtain ⟨i, hi, hgot, hcnt⟩ := ih hmem
      refine ⟨i + 1, ?_, ?_, ?_⟩
      · exact Nat.succ_lt_succ hi
      · simpa using hgot
      · rw [List.take_succ_cons]
        simp [List.count_cons, hx, hcnt]

theorem headerTrace_names_spec (suf : List FormField) :
    ∀ (pre : List FormField) (occ : String → Nat) (keys : List String) (pos : Nat),
    NoCollision (pre ++ suf) →
    (∀ L, occ L = max 1 (countBefore (pre ++ suf) pre.length L)) →
    (∀ L, (keys.any (fun k => k == L) = true ↔
      ∃ q, q < pre.length ∧ specName (pre ++ suf) q = L)) →
    ∀ i, i < suf.length →
      ((headerTrace occ keys pos suf).map Prod.fst).getD i ""
        = specName (pre ++ suf) (pre.length + i) := by
  induction suf with
  | nil =>
    intro pre occ keys pos _ _ _ i hi
    exact absurd hi (Nat.not_lt_zero i)
  | cons f rest ih =>
    intro pre occ keys pos hnc hocc hkeys i hi
    have hlab : labelAt (pre ++ f :: rest) pre.length = f.label :=
      labelAt_append_cons pre f rest
    have hlen1 : (pre ++ [f]).length = pre.length + 1 := by simp
    have hfe : pre ++ f :: rest = (pre ++ [f]) ++ rest := List.append_cons pre f rest
    by_cases hc0 : (pre.map FormField.label).count f.label = 0
    · -- first occurrence of this label among the fields processed so far
      have hzero : countBefore (pre ++ f :: rest) pre.length
          (labelAt (pre ++ f :: rest) pre.length) = 0 := by
        rw [hlab, countBefore_append_cons]
        exact hc0
      have hnone : ∀ q, q < pre.length → specName (pre ++ f :: rest) q ≠ f.label := by
        intro q hq
        have h2 := hnc pre.length (by simp) hzero q hq
        rwa [hlab] at h2
      have hany : keys.any (fun k => k == f.label) = false := by
        apply Bool.eq_false_iff.mpr
        intro htrue
        obtain ⟨q, hq, hspec⟩ := (hkeys f.label).mp htrue
        exact hnone q hq hspec
      have htr : headerTrace occ keys pos (f :: rest)
          = (f.label, HeaderValue.accessor (clean_data f.label pos)) ::
            headerTrace occ (keys ++ [f.label]) (pos + 1) rest := by
        simp only [headerTrace, hany, Bool.false_eq_true, if_false]
      have hspecp : specName (pre ++ f :: rest) pre.length = f.label := by
        unfold specName
        rw [hlab, countBefore_append_cons, if_pos hc0]
      have hocc2 : ∀ L, occ L
          = max 1 (countBefore ((pre ++ [f]) ++ rest) (pre ++ [f]).length L) := by
        intro L
        rw [hlen1, ← hfe, countBefore_append_cons_succ]
        have h1 := hocc L
        rw [countBefore_append_cons] at h1
        by_cases hL : f.label = L
        · subst hL
          rw [hc0] at h1
          rw [h1, hc0, if_pos rfl]
          decide
        · rw [if_neg hL, Nat.add_zero, h1]
      have hkeys2 : ∀ L, ((keys ++ [f.label]).any (fun k => k == L) = true ↔
          ∃ q, q < (pre ++ [f]).length ∧ specName ((pre ++ [f]) ++ rest) q = L) := by
        intro L
        rw [hlen1, ← hfe, List.any_append]
        simp only [Bool.or_eq_true, List.any_cons, List.any_nil, Bool.or_false,
          beq_iff_eq]
        constructor
        · intro h
          rcases h with h | h
          · obtain ⟨q, hq, hs⟩ := (hkeys L).mp h
            exact ⟨q, Nat.lt_succ_of_lt hq, hs⟩
          · exact ⟨pre.length, Nat.lt_succ_self _, by rw [hspecp]; exact h⟩
        · rintro ⟨q, hq, hs⟩
          rcases Nat.lt_succ_iff_lt_or_eq.mp hq with hq2 | hq2
          · exact Or.inl ((hkeys L).mpr ⟨q, hq2, hs⟩)
          · subst hq2
            rw [hspecp] at hs
            exact Or.inr hs
      cases i with
      | zero =>
        rw [htr]
        simp only [List.map_cons, List.getD_cons_zero, Nat.add_zero]
        exact hspecp.symm
      | succ j =>
        have hj : j < rest.length := Nat.lt_of_succ_lt_succ hi
        have ihres := ih (pre ++ [f]) occ (keys ++ [f.label]) (pos + 1)
          (hfe ▸ hnc) hocc2 hkeys2 j hj
        rw [htr]
        simp only [List.map_cons, List.getD_cons_succ]
        rw [ihres, ← hfe]
        congr 1
        rw [hlen1]
        omega
    · -- repeated label: the disambiguated name is assigned
      have hmem : f.label ∈ pre.map FormField.label :=
        List.count_pos_iff.mp (Nat.pos_of_ne_zero hc0)
      obtain ⟨q0, hq0len, hq0get, hq0cnt⟩ :=
        first_occurrence_exists f.label (pre.map FormField.label) hmem
      have hq0lt : q0 < pre.length := by simpa using hq0len
      have hspecq0 : specName (pre ++ f :: rest) q0 = f.label := by
        unfold specName
        rw [labelAt_append_of_lt pre (f :: rest) q0 hq0lt, hq0get,
          countBefore_append_of_le pre (f :: rest) q0 (Nat.le_of_lt hq0lt),
          if_pos hq0cnt]
      have hany : keys.any (fun k => k == f.label) = true :=
        (hkeys f.label).mpr ⟨q0, hq0lt, hspecq0⟩
      have htr : headerTrace occ keys pos (f :: rest)
          = (f.label ++ " " ++ Nat.repr (occ f.label + 1),
              HeaderValue.accessor (clean_data f.label pos)) ::
            headerTrace (fun l => if l = f.label then occ f.label + 1 else occ l)
              (if keys.any
                  (fun k => k == f.label ++ " " ++ Nat.repr (occ f.label + 1)) then
                keys
              else keys ++ [f.label ++ " " ++ Nat.repr (occ f.label + 1)])
              (pos + 1) rest := by
        simp only [headerTrace, hany, if_true]
      have hoccval : occ f.label = (pre.map FormField.label).count f.label := by
        rw [hocc f.label, countBefore_append_cons]
        omega
      have hspecp : specName (pre ++ f :: rest) pre.length
          = f.label ++ " " ++ Nat.repr ((pre.map FormField.label).count f.label + 1) := by
        unfold specName
        rw [hlab, countBefore_append_cons, if_neg hc0]
      have hocc2 : ∀ L, (fun l => if l = f.label then occ f.label + 1 else occ l) L
          = max 1 (countBefore ((pre ++ [f]) ++ rest) (pre ++ [f]).length L) := by
        intro L
        show (if L = f.label then occ f.label + 1 else occ L) = _
        rw [hlen1, ← hfe, countBefore_append_cons_succ]
        have h1 := hocc L
        rw [countBefore_append_cons] at h1
        by_cases hL : L = f.label
        · subst hL
          rw [if_pos rfl, if_pos rfl, hoccval]
          omega
        · have hL2 : ¬ f.label = L := fun he => hL he.symm
          rw [if_neg hL, if_neg hL2, Nat.add_zero]
          exact h1
      have hkeys2 : ∀ L,
          ((if keys.any
              (fun k => k == f.label ++ " " ++ Nat.repr (occ f.label + 1)) then
            keys
          else keys ++ [f.label ++ " " ++ Nat.repr (occ f.label + 1)]).any
            (fun k => k == L) = true ↔
          ∃ q, q < (pre ++ [f]).length ∧ specName ((pre ++ [f]) ++ rest) q = L) := by
        intro L
        have hspecnm : specName (pre ++ f :: rest) pre.length
            = f.label ++ " " ++ Nat.repr (occ f.label + 1) := by
          rw [hspecp, hoccval]
        have hiff : ((if keys.any
            (fun k => k == f.label ++ " " ++ Nat.repr (occ f.label + 1)) then
              keys
            else keys ++ [f.label ++ " " ++ Nat.repr (occ f.label + 1)]).any
              (fun k => k == L) = true ↔
            (keys.any (fun k => k == L) = true
              ∨ f.label ++ " " ++ Nat.repr (occ f.label + 1) = L)) := by
          by_cases hnm : keys.any
              (fun k => k == f.label ++ " " ++ Nat.repr (occ f.label + 1)) = true
          · rw [if_pos hnm]
            constructor
            · exact Or.inl
            · intro h
              rcases h with h | h
              · exact h
              · rw [← h]
                exact hnm
          · rw [if_neg hnm, List.any_append]
            simp only [Bool.or_eq_true, List.any_cons, List.any_nil, Bool.or_false,
              beq_iff_eq]
        rw [hlen1, ← hfe, hiff]
        constructor
        · intro h
          rcases h with h | h
          · obtain ⟨q, hq, hs⟩ := (hkeys L).mp h
            exact ⟨q, Nat.lt_succ_of_lt hq, hs⟩
          · exact ⟨pre.length, Nat.lt_succ_self _, by rw [hspecnm]; exact h⟩
        · rintro ⟨q, hq, hs⟩
          rcases Nat.lt_succ_iff_lt_or_eq.mp hq with hq2 | hq2
          · exact Or.inl ((hkeys L).mpr ⟨q, hq2, hs⟩)
          · subst hq2
            rw [hspecnm] at hs
            exact Or.inr hs
      cases i with
      | zero =>
        rw [htr]
        simp only [List.map_cons, List.getD_cons_zero, Nat.add_zero]
        rw [hspecp, hoccval]
      | succ j =>
        have hj : j < rest.length := Nat.lt_of_succ_lt_succ hi
        have ihres := ih (pre ++ [f])
          (fun l => if l = f.label then occ f.label + 1 else occ l)
          (if keys.any
              (fun k => k == f.label ++ " " ++ Nat.repr (occ f.label + 1)) then
            keys
          else keys ++ [f.label ++ " " ++ Nat.repr (occ f.label + 1)])
          (pos + 1) (hfe ▸ hnc) hocc2 hkeys2 j hj
        rw [htr]
        simp only [List.map_cons, List.getD_cons_succ]
        rw [ihres, ← hfe]
        congr 1
        rw [hlen1]
        omega

/-- C2 (amended): under the no-collision condition, the column name assigned
by the header builder to the field at each position is exactly the
spec-described one: the bare label for a first occurrence, and for the k-th
occurrence of a label (k at least 2) the label suffixed with a space and k
(so the second occurrence gets "L 2"), which differs from the bare label,
so duplicate occurrences get distinct headers. Without the proviso the
occurrence counter can be advanced past k by a stray key collision (see the
counterexample). -/
theorem c2_duplicate_label_headers (fields : List FormField)
    (hnc : NoCollision fields) (p : Nat) (hp : p < fields.length) :
    (assignedNames fields).getD p "" = specName fields p
    ∧ (0 < countBefore fields p (labelAt fields p) →
        specName fields p = labelAt fields p ++ " "
            ++ Nat.repr (countBefore fields p (labelAt fields p) + 1)
          ∧ specName fields p ≠ labelAt fields p) := by
  constructor
  · have h := headerTrace_names_spec fields [] (fun _ => 1) [] 0
      (by simpa using hnc)
      (by intro L; simp [countBefore])
      (by intro L; simp)
      p (by simpa using hp)
    simpa [assignedNames] using h
  · intro hpos
    have hne : countBefore fields p (labelAt fields p) ≠ 0 :=
      Nat.pos_iff_ne_zero.mp hpos
    refine ⟨by unfold specName; rw [if_neg hne], ?_⟩
    unfold specName
    rw [if_neg hne]
    intro heq
    have hlen := congrArg String.length heq
    rw [String.length_append, String.length_append] at hlen
    have hsp : (" " : String).length = 1 := rfl
    omega

/-- C2 counterexample: with field labels "M", "M", "M 2", "M 2", the fields
at positions 2 < 3 both carry the label "M 2"; position 3 is the second
occurrence of that label, yet its assigned column name is "M 2 3", not
"M 2" suffixed with " 2" (that name, "M 2 2", went to position 2, whose
counter was advanced by the disambiguated key "M 2" generated for
position 1). -/
theorem c2_counterexample :
    labelAt [⟨"M", "a"⟩, ⟨"M", "b"⟩, ⟨"M 2", "c"⟩, ⟨"M 2", "d"⟩] 2 = "M 2"
    ∧ labelAt [⟨"M", "a"⟩, ⟨"M", "b"⟩, ⟨"M 2", "c"⟩, ⟨"M 2", "d"⟩] 3 = "M 2"
    ∧ countBefore [⟨"M", "a"⟩, ⟨"M", "b"⟩, ⟨"M 2", "c"⟩, ⟨"M 2", "d"⟩] 3 "M 2" = 1
    ∧ (assignedNames [⟨"M", "a"⟩, ⟨"M", "b"⟩, ⟨"M 2", "c"⟩, ⟨"M 2", "d"⟩]).getD 3 ""
        = "M 2 3"
    ∧ (assignedNames [⟨"M", "a"⟩, ⟨"M", "b"⟩, ⟨"M 2", "c"⟩, ⟨"M 2", "d"⟩]).getD 3 ""
        ≠ "M 2" ++ " 2" := by
  decide

/-- C2 witness: with field labels "a", "a" the second occurrence receives
the column name prescribed by specName, namely "a 2". -/
theorem c2_witness :
    NoCollision [⟨"a", "1"⟩, ⟨"a", "2"⟩]
    ∧ (1 : Nat) < ([⟨"a", "1"⟩, ⟨"a", "2"⟩] : List FormField).length
    ∧ (assignedNames [⟨"a", "1"⟩, ⟨"a", "2"⟩]).getD 1 ""
        = specName [⟨"a", "1"⟩, ⟨"a", "2"⟩] 1 :=
  ⟨by decide, by decide,
    (c2_duplicate_label_headers _ (by decide) 1 (by decide)).1⟩

/-- C3: an accessor built from label and position returns the empty value on
any submission whose field at that position is missing or carries a
different label; the embedding is a total function, matching the source's
catching of IndexError and its label sanity check, so no exception
escapes. -/
theorem c3_accessor_mismatch_empty (label : String) (position : Nat)
    (obj : FormSubmission)
    (h : obj.get_form_data.get? position = none
      ∨ ∀ fld, obj.get_form_data.get? position = some fld → fld.label ≠ label) :
    clean_data label position obj = "" := by
  unfold clean_data
  rcases h with h | h
  · rw [h]
  · cases hf : obj.get_form_data.get? position with
    | none => rfl
    | some fld =>
      show (if fld.label = label then fld.value else "") = ""
      rw [if_neg (h fld hf)]

/-- C3 witness: the accessor for label "x" at position 0 returns the empty
string on a submission whose position-0 field is labelled "y". -/
theorem c3_witness :
    ((⟨"s", 0, "en", [⟨"y", "v"⟩]⟩ : FormSubmission).get_form_data.get? 0 = none
      ∨ ∀ fld, (⟨"s", 0, "en", [⟨"y", "v"⟩]⟩ : FormSubmission).get_form_data.get? 0
          = some fld → fld.label ≠ "x")
    ∧ clean_data "x" 0 ⟨"s", 0, "en", [⟨"y", "v"⟩]⟩ = "" := by
  have harg : ∀ fld, (⟨"s", 0, "en", [⟨"y", "v"⟩]⟩ : FormSubmission).get_form_data.get? 0
      = some fld → fld.label ≠ "x" := by
    intro fld hf
    have h2 : (⟨"y", "v"⟩ : FormField) = fld := Option.some.inj hf
    rw [← h2]
    decide
  exact ⟨Or.inr harg, c3_accessor_mismatch_empty "x" 0 _ (Or.inr harg)⟩

theorem sdSet_mem (d : List (String × HeaderValue)) (k : String) (v : HeaderValue)
    (e : String × HeaderValue) (he : e ∈ sdSet d k v) :
    e ∈ d ∨ e.2 = v := by
  unfold sdSet at he
  by_cases hc : d.any (fun p => p.1 == k) = true
  · rw [if_pos hc] at he
    obtain ⟨p, hp, hpe⟩ := List.mem_map.mp he
    by_cases hpk : (p.1 == k) = true
    · rw [if_pos hpk] at hpe
      right
      rw [← hpe]
    · rw [if_neg hpk] at hpe
      left
      exact hpe ▸ hp
  · rw [if_neg hc] at he
    rcases List.mem_append.mp he with h | h
    · exact Or.inl h
    · right
      simp only [List.mem_singleton] at h
      rw [h]

theorem headersAux_values (fs : List FormField) :
    ∀ (occ : String → Nat) (hs : List (String × HeaderValue)) (pos : Nat)
    (e : String × HeaderValue), e ∈ headersAux occ hs pos fs →
    e ∈ hs ∨ ∃ i, i < fs.length
      ∧ e.2 = HeaderValue.accessor (clean_data ((fs.getD i default).label) (pos + i)) := by
  induction fs with
  | nil =>
    intro occ hs pos e he
    exact Or.inl he
  | cons f rest ih =>
    intro occ hs pos e he
    by_cases hc : hs.any (fun p => p.1 == f.label) = true
    · have haux : headersAux occ hs pos (f :: rest)
          = headersAux (fun l => if l = f.label then occ f.label + 1 else occ l)
            (sdSet hs (f.label ++ " " ++ Nat.repr (occ f.label + 1))
              (HeaderValue.accessor (clean_data f.label pos))) (pos + 1) rest := by
        simp only [headersAux, hc, if_true]
      rw [haux] at he
      rcases ih _ _ _ e he with h | ⟨i, hi, hev⟩
      · rcases sdSet_mem _ _ _ e h with h2 | h2
        · exact Or.inl h2
        · exact Or.inr ⟨0, Nat.succ_pos _, by simpa using h2⟩
      · refine Or.inr ⟨i + 1, Nat.succ_lt_succ hi, ?_⟩
        rw [List.getD_cons_succ]
        have hidx : pos + (i + 1) = pos + 1 + i := by omega
        rw [hidx]
        exact hev
    · simp only [Bool.not_eq_true] at hc
      have haux : headersAux occ hs pos (f :: rest)
          = headersAux occ
            (sdSet hs f.label (HeaderValue.accessor (clean_data f.label pos)))
            (pos + 1) rest := by
        simp only [headersAux, hc, Bool.false_eq_true, if_false]
      rw [haux] at he
      rcases ih _ _ _ e he with h | ⟨i, hi, hev⟩
      · rcases sdSet_mem _ _ _ e h with h2 | h2
        · exact Or.inl h2
        · exact Or.inr ⟨0, Nat.succ_pos _, by simpa using h2⟩
      · refine Or.inr ⟨i + 1, Nat.succ_lt_succ hi, ?_⟩
        rw [List.getD_cons_succ]
        have hidx : pos + (i + 1) = pos + 1 + i := by omega
        rw [hidx]
        exact hev

/-- C9: every accessor stored in the field-derived header mapping is
clean_data applied to the original (non-suffixed) label and position of
some reference field, regardless of the (possibly disambiguated) column
name it is stored under; on any submission whose field at that position
carries that original label, it returns that field's value. -/
theorem c9_accessor_uses_original_label (fields : List FormField)
    (e : String × HeaderValue) (he : e ∈ fieldHeaders fields) :
    ∃ p, p < fields.length
      ∧ e.2 = HeaderValue.accessor (clean_data ((fields.getD p default).label) p)
      ∧ ∀ (obj : FormSubmission) (fld : FormField),
          obj.get_form_data.get? p = some fld →
          fld.label = (fields.getD p default).label →
          clean_data ((fields.getD p default).label) p obj = fld.value := by
  rcases headersAux_values fields (fun _ => 1) [] 0 e he with h | ⟨i, hi, hev⟩
  · cases h
  · refine ⟨i, hi, by simpa using hev, ?_⟩
    intro obj fld hget hlbl
    unfold clean_data
    rw [hget]
    simp only [if_pos hlbl]

/-- C9 witness: the single entry built from a one-field reference submission
holds the accessor for the original label "a" at position 0. -/
theorem c9_witness :
    (("a", HeaderValue.accessor (clean_data "a" 0)) ∈ fieldHeaders [⟨"a", "1"⟩])
    ∧ ∃ p, p < ([⟨"a", "1"⟩] : List FormField).length
      ∧ (("a", HeaderValue.accessor (clean_data "a" 0)) :
          String × HeaderValue).2
          = HeaderValue.accessor
              (clean_data ((([⟨"a", "1"⟩] : List FormField).getD p default).label) p)
      ∧ ∀ (obj : FormSubmission) (fld : FormField),
          obj.get_form_data.get? p = some fld →
          fld.label = (([⟨"a", "1"⟩] : List FormField).getD p default).label →
          clean_data ((([⟨"a", "1"⟩] : List FormField).getD p default).label) p obj
            = fld.value := by
  have hmem : (("a", HeaderValue.accessor (clean_data "a" 0))
      ∈ fieldHeaders [⟨"a", "1"⟩]) := by
    show _ ∈ [("a", HeaderValue.accessor (clean_data "a" 0))]
    exact List.mem_singleton_self _
  exact ⟨hmem, c9_accessor_uses_original_label [⟨"a", "1"⟩] _ hmem⟩

/-- C5 (amended): provided no field-derived column is named "Language" or
"Submitted on", the headers mapping is the field-derived columns followed
by the "Language" column holding the locale attribute and the
"Submitted on" column holding the timestamp attribute, in the last two
positions. Without that proviso the trailing assignment updates the
existing field column in place and stays at its earlier position (see the
counterexample). -/
theorem c5_trailing_columns (fields : List FormField)
    (h1 : "Language" ∉ (fieldHeaders fields).map Prod.fst)
    (h2 : "Submitted on" ∉ (fieldHeaders fields).map Prod.fst) :
    (buildHeaders fields).map Prod.fst
        = (fieldHeaders fields).map Prod.fst ++ ["Language", "Submitted on"]
    ∧ sdGet (buildHeaders fields) "Language" = some (HeaderValue.attr "language")
    ∧ sdGet (buildHeaders fields) "Submitted on"
        = some (HeaderValue.attr "sent_at") := by
  have hb : buildHeaders fields = fieldHeaders fields ++
      [("Language", HeaderValue.attr "language"),
       ("Submitted on", HeaderValue.attr "sent_at")] := by
    rw [buildHeaders, sdSet_of_not_mem _ _ _ h1, sdSet_of_not_mem, List.append_assoc]
    rfl
    simp only [List.map_append, List.map_cons, List.map_nil]
    intro hmem
    rcases List.mem_append.mp hmem with hmem | hmem
    · exact h2 hmem
    · simp only [List.mem_singleton] at hmem
      exact absurd hmem.symm (by decide)
  refine ⟨by rw [hb]; simp, ?_, ?_⟩
  · rw [hb, sdGet_append_of_not_mem _ _ _ h1]
    rfl
  · rw [hb, sdGet_append_of_not_mem _ _ _ h2]
    rfl

/-- C5 counterexample: with field labels "Language", "X", the "Language"
column (which ends up holding the locale attribute) sits at position 0,
before the field-derived column "X", so the two trailing columns do not
occupy the last two positions. -/
theorem c5_counterexample :
    (buildHeaders [⟨"Language", "x"⟩, ⟨"X", "y"⟩]).map Prod.fst
      = ["Language", "X", "Submitted on"]
    ∧ ¬ ((buildHeaders [⟨"Language", "x"⟩, ⟨"X", "y"⟩]).map Prod.fst
        = (fieldHeaders [⟨"Language", "x"⟩, ⟨"X", "y"⟩]).map Prod.fst
          ++ ["Language", "Submitted on"]) := by
  decide

/-- C5 witness: with a single field labelled "a" the mapping is
"a", "Language", "Submitted on" with the two attribute columns last. -/
theorem c5_witness :
    ("Language" ∉ (fieldHeaders [⟨"a", "1"⟩]).map Prod.fst)
    ∧ ("Submitted on" ∉ (fieldHeaders [⟨"a", "1"⟩]).map Prod.fst)
    ∧ ((buildHeaders [⟨"a", "1"⟩]).map Prod.fst
        = (fieldHeaders [⟨"a", "1"⟩]).map Prod.fst ++ ["Language", "Submitted on"]
      ∧ sdGet (buildHeaders [⟨"a", "1"⟩]) "Language"
          = some (HeaderValue.attr "language")
      ∧ sdGet (buildHeaders [⟨"a", "1"⟩]) "Submitted on"
          = some (HeaderValue.attr "sent_at")) :=
  ⟨by decide, by decide, c5_trailing_columns _ (by decide) (by decide)⟩

/-- C4: on a valid filter form whose queryset is empty, form_export returns
the "No records found" warning plus a redirect to the export view; the
result does not depend on the export callable (which is universally
quantified and absent from the result), so the export call is never
invoked. -/
theorem c4_empty_queryset_warning (meta : AdminMeta) (exportFn : ExportFn)
    (form : ExportForm) (hv : form.is_valid = true)
    (he : form.get_queryset = []) :
    form_export meta exportFn form
      = Except.ok (AdminResponse.warningRedirect "No records found"
          ("admin:" ++ BaseFormSubmissionAdmin.get_admin_url meta "export")) := by
  simp [form_export, hv, he, queryset_exists]

/-- C4 witness: a valid form with an empty queryset produces the warning
redirect for the formdata export view. -/
theorem c4_witness :
    ((⟨"contact", true, [], []⟩ : ExportForm).is_valid = true)
    ∧ ((⟨"contact", true, [], []⟩ : ExportForm).get_queryset = [])
    ∧ form_export ⟨"aldryn_forms", "formdata"⟩
        (tablibExport TablibVersion.modern) ⟨"contact", true, [], []⟩
      = Except.ok (AdminResponse.warningRedirect "No records found"
          ("admin:" ++ BaseFormSubmissionAdmin.get_admin_url
            ⟨"aldryn_forms", "formdata"⟩ "export")) :=
  ⟨rfl, rfl, c4_empty_queryset_warning _ _ _ rfl rfl⟩

/-- C7: on the export path, form_export first calls the export view with the
file_type keyword; if that call returns a response it is used as is and no
retry happens; if and only if it raises TypeError the call is retried once
with the legacy format keyword, whose outcome (response or exception) is
final; any non-TypeError exception of the first call propagates without a
retry. -/
theorem c7_keyword_fallback (meta : AdminMeta) (exportFn : ExportFn)
    (form : ExportForm) (hv : form.is_valid = true)
    (hne : queryset_exists form.get_queryset = true) :
    (∀ r, do_export exportFn form ExportKeyword.file_type = Except.ok r →
      form_export meta exportFn form = Except.ok (AdminResponse.exported r))
    ∧ (do_export exportFn form ExportKeyword.file_type
          = Except.error PyError.typeError →
        ((∀ r, do_export exportFn form ExportKeyword.format = Except.ok r →
          form_export meta exportFn form = Except.ok (AdminResponse.exported r))
        ∧ (∀ e, do_export exportFn form ExportKeyword.format = Except.error e →
          form_export meta exportFn form = Except.error e)))
    ∧ (∀ msg, do_export exportFn form ExportKeyword.file_type
          = Except.error (PyError.otherError msg) →
        form_export meta exportFn form = Except.error (PyError.otherError msg)) := by
  refine ⟨?_, ?_, ?_⟩
  · intro r hok
    simp [form_export, hv, hne, hok]
  · intro hTE
    constructor
    · intro r hok
      simp [form_export, hv, hne, hTE, hok]
    · intro e herr
      simp [form_export, hv, hne, hTE, herr]
  · intro msg herr
    simp [form_export, hv, hne, herr]

/-- C7 witness: with an export callable that succeeds on the first keyword,
form_export returns that response. -/
theorem c7_witness :
    ((⟨"contact", true, [⟨"contact", 5, "en", [⟨"x", "1"⟩]⟩], []⟩ :
        ExportForm).is_valid = true)
    ∧ (queryset_exists (⟨"contact", true, [⟨"contact", 5, "en", [⟨"x", "1"⟩]⟩],
        []⟩ : ExportForm).get_queryset = true)
    ∧ (do_export (fun _ _ _ _ => Except.ok ⟨"ct", "fn"⟩)
        ⟨"contact", true, [⟨"contact", 5, "en", [⟨"x", "1"⟩]⟩], []⟩
        ExportKeyword.file_type = Except.ok ⟨"ct", "fn"⟩)
    ∧ form_export ⟨"app", "model"⟩ (fun _ _ _ _ => Except.ok ⟨"ct", "fn"⟩)
        ⟨"contact", true, [⟨"contact", 5, "en", [⟨"x", "1"⟩]⟩], []⟩
      = Except.ok (AdminResponse.exported ⟨"ct", "fn"⟩) :=
  ⟨rfl, rfl, rfl,
    (c7_keyword_fallback ⟨"app", "model"⟩ (fun _ _ _ _ => Except.ok ⟨"ct", "fn"⟩)
      ⟨"contact", true, [⟨"contact", 5, "en", [⟨"x", "1"⟩]⟩], []⟩ rfl rfl).1
      ⟨"ct", "fn"⟩ rfl⟩

/-- C8: the reference record used to build the export headers, the first
element of the queryset ordered by submission timestamp descending, is a
matching record whose timestamp is maximal, i.e. the most recently
submitted matching record. -/
theorem c8_reference_entry_most_recent (entries : List FormSubmission)
    (h : entries ≠ []) :
    first_entry entries ∈ entries
    ∧ ∀ e, e ∈ entries → e.sent_at ≤ (first_entry entries).sent_at := by
  have hperm : List.Perm (sortBySentAtDesc entries) entries :=
    List.perm_insertionSort sentAtGE entries
  have hsorted : List.Sorted sentAtGE (sortBySentAtDesc entries) :=
    List.sorted_insertionSort sentAtGE entries
  cases hs : sortBySentAtDesc entries with
  | nil =>
    rw [hs] at hperm
    exact absurd hperm.symm.eq_nil h
  | cons a t =>
    have hfe : first_entry entries = a := by
      rw [first_entry, hs]
      rfl
    rw [hs] at hperm hsorted
    constructor
    · rw [hfe]
      exact hperm.mem_iff.mp (List.mem_cons_self a t)
    · intro e he
      have he2 : e ∈ a :: t := hperm.mem_iff.mpr he
      rw [hfe]
      rcases List.mem_cons.mp he2 with he3 | he3
      · rw [he3]
      · exact List.rel_of_sorted_cons hsorted e he3

/-- C8 witness: of two entries with timestamps 1 and 5 the reference entry
is a member with the maximal timestamp. -/
theorem c8_witness :
    (([⟨"f", 1, "en", []⟩, ⟨"f", 5, "en", []⟩] : List FormSubmission) ≠ [])
    ∧ first_entry [⟨"f", 1, "en", []⟩, ⟨"f", 5, "en", []⟩]
        ∈ ([⟨"f", 1, "en", []⟩, ⟨"f", 5, "en", []⟩] : List FormSubmission)
    ∧ ∀ e, e ∈ ([⟨"f", 1, "en", []⟩, ⟨"f", 5, "en", []⟩] : List FormSubmission) →
        e.sent_at ≤ (first_entry [⟨"f", 1, "en", []⟩, ⟨"f", 5, "en", []⟩]).sent_at :=
  ⟨by decide,
    (c8_reference_entry_most_recent _ (by decide)).1,
    (c8_reference_entry_most_recent _ (by decide)).2⟩

/-- C10: a valid filter form with a non-empty queryset makes form_export
return, for either supported export-library version, the export call's
response, carrying the Excel content type and the non-empty attachment
filename derived from the filter form. -/
theorem c10_valid_nonempty_export_response (v : TablibVersion) (meta : AdminMeta)
    (form : ExportForm) (hv : form.is_valid = true)
    (hne : form.get_queryset ≠ []) :
    ∃ r, form_export meta (tablibExport v) form
        = Except.ok (AdminResponse.exported r)
      ∧ r.contentType = "application/vnd.ms-excel"
      ∧ r.filename = form.get_filename
      ∧ r.filename ≠ "" := by
  have hq : queryset_exists form.get_queryset = true := by
    cases hql : form.get_queryset with
    | nil => exact absurd hql hne
    | cons a t => rfl
  have hfn : form.get_filename ≠ "" := by
    unfold ExportForm.get_filename
    intro h0
    have h1 := congrArg String.length h0
    rw [String.length_append, String.length_append] at h1
    have he1 : ("export-" : String).length = 7 := rfl
    have he2 : (".xls" : String).length = 4 := rfl
    have he3 : ("" : String).length = 0 := rfl
    omega
  cases v with
  | modern =>
    refine ⟨⟨"application/vnd.ms-excel", form.get_filename⟩, ?_, rfl, rfl, hfn⟩
    simp [form_export, hv, hq, do_export, tablibExport]
  | legacy =>
    refine ⟨⟨"application/vnd.ms-excel", form.get_filename⟩, ?_, rfl, rfl, hfn⟩
    simp [form_export, hv, hq, do_export, tablibExport]

/-- C10 witness: a valid one-record form exported under the modern library
version yields an Excel attachment response with a non-empty filename. -/
theorem c10_witness :
    ((⟨"contact", true, [⟨"contact", 5, "en", [⟨"x", "1"⟩]⟩], []⟩ :
        ExportForm).is_valid = true)
    ∧ ((⟨"contact", true, [⟨"contact", 5, "en", [⟨"x", "1"⟩]⟩], []⟩ :
        ExportForm).get_queryset ≠ [])
    ∧ ∃ r, form_export ⟨"app", "model"⟩ (tablibExport TablibVersion.modern)
          ⟨"contact", true, [⟨"contact", 5, "en", [⟨"x", "1"⟩]⟩], []⟩
        = Except.ok (AdminResponse.exported r)
      ∧ r.contentType = "application/vnd.ms-excel"
      ∧ r.filename = (⟨"contact", true, [⟨"contact", 5, "en", [⟨"x", "1"⟩]⟩],
          []⟩ : ExportForm).get_filename
      ∧ r.filename ≠ "" :=
  ⟨rfl, by decide,
    c10_valid_nonempty_export_response TablibVersion.modern _ _ rfl (by decide)⟩

/-- C6: has_add_permission returns false on both registered model admins for
every request, so creating submission records through the admin is always
rejected; the embedding of the admin file is read-only (no operation
mutates a submission record). -/
theorem c6_add_permission_denied (request : HttpRequest) :
    FormDataAdmin.has_add_permission request = false
    ∧ FormSubmissionAdmin.has_add_permission request = false :=
  ⟨rfl, rfl⟩
